import Mathlib

/-!
A shallow embedding of the content-type chain module (`content_type.rs`),
the wrap/unwrap type-tag protocol (`types_chain.rs`) and the shared
auto-type codec shape of `base64.rs`, `json.rs` and `sealedbox.rs`.

Strings are modelled as `List Char`; positions are character positions,
which coincide with Rust byte offsets on the ASCII strings that MIME
types and HTTP header values consist of.  The external `http` crate's
`HeaderValue::try_from` is modelled as an abstract validity predicate
`hvOk` passed as a parameter, and a stored `HeaderValue` is modelled by
the string it carries.  Rust `usize` subtraction appears in
`last_subtype`; it is modelled twice: `usizeSubChecked` (debug profile:
`none` marks the overflow panic) and, in the main model, `Nat`
truncated subtraction, which agrees with release-profile wrapping here
because `get_subtype` rejects every out-of-range index (wrapping sends
`0 - 1` to `2^64 - 1`, truncation sends it to `0`; on a zero-tag chain
both indices fail the `index < num_subtypes` guard, and for
`num_subtypes > 0` both equal `num_subtypes - 1`).
-/

/-- Model of Rust `str::find(c)`: index of the first occurrence of `c`. -/
def findChar (c : Char) : List Char → Option Nat
  | [] => none
  | x :: xs => if x = c then some 0 else (findChar c xs).map (· + 1)

/-- The `+`-scanning loop of `ContentType::new`: starting at `off`, each
found `+` becomes an offset and scanning resumes after it; when no `+`
remains the closing offset `src.length` is emitted.  The Rust loop
terminates because `off` strictly increases; here a fuel argument plays
that role, and whenever `src.length < fuel + off` the fuel never runs
out (the zero-fuel branch moreover returns what the loop itself returns
once `off` passes the end of the string). -/
def scanPlusAux (src : List Char) : Nat → Nat → List Nat
  | 0, _ => [src.length]
  | fuel + 1, off =>
    match findChar '+' (src.drop off) with
    | some d => (off + d) :: scanPlusAux src fuel (off + d + 1)
    | none => [src.length]

/-- The scanning loop entered with enough fuel for any start offset. -/
def scanPlus (src : List Char) (off : Nat) : List Nat :=
  scanPlusAux src (src.length + 1) off

/-- Rust `ContentType`: the full type string plus the chain offsets. -/
structure ContentType where
  fulltype : List Char
  typeoffs : List Nat
deriving Repr, DecidableEq

/-- `ContentType::new`: record the `/` position if any, then scan for
`+` from the character after the `/`; a source without `/` yields the
single closing offset. -/
def ContentType.new (src : List Char) : ContentType :=
  match findChar '/' src with
  | some maintypeEnd => ⟨src, maintypeEnd :: scanPlus src (maintypeEnd + 1)⟩
  | none => ⟨src, [src.length]⟩

/-- `as_ref`: `fulltype[0..typeoffs[typeoffs.len() - 1]]`.  The source
indexes the last offset (every constructed value has a non-empty
`typeoffs`); `getD` with default `0` makes the model total. -/
def ContentType.as_ref (ct : ContentType) : List Char :=
  ct.fulltype.take (ct.typeoffs.getD (ct.typeoffs.length - 1) 0)

/-- `get_type`: `fulltype[0..typeoffs[0]]`. -/
def ContentType.get_type (ct : ContentType) : List Char :=
  ct.fulltype.take (ct.typeoffs.getD 0 0)

/-- `num_subtypes`: `typeoffs.len() - 1`. -/
def ContentType.num_subtypes (ct : ContentType) : Nat :=
  ct.typeoffs.length - 1

/-- `get_subtype`: for `index < num_subtypes` the slice strictly between
offsets `index` and `index + 1`, skipping the delimiter; `none`
otherwise. -/
def ContentType.get_subtype (ct : ContentType) (index : Nat) : Option (List Char) :=
  if index < ct.num_subtypes then
    some ((ct.fulltype.take (ct.typeoffs.getD (index + 1) 0)).drop (ct.typeoffs.getD index 0 + 1))
  else
    none

/-- `last_subtype`: `get_subtype(num_subtypes() - 1)` with the release
semantics of the unguarded `usize` subtraction (see the header note). -/
def ContentType.last_subtype (ct : ContentType) : Option (List Char) :=
  ct.get_subtype (ct.num_subtypes - 1)

/-- Rust `usize` subtraction, debug profile: `none` is the
"attempt to subtract with overflow" panic. -/
def usizeSubChecked (a b : Nat) : Option Nat :=
  if b ≤ a then some (a - b) else none

/-- `last_subtype` under the debug profile: the outer `none` marks the
panic of the unguarded `num_subtypes() - 1` on a zero-tag chain. -/
def ContentType.last_subtypeDbg (ct : ContentType) : Option (Option (List Char)) :=
  (usizeSubChecked ct.num_subtypes 1).map ct.get_subtype

/-- `pop_subtype`: drop the last offset iff at least one subtype
remains. -/
def ContentType.pop_subtype (ct : ContentType) : ContentType :=
  if 0 < ct.num_subtypes then { ct with typeoffs := ct.typeoffs.dropLast } else ct

/-- `push_subtype`: append `'+'` (or `'/'` when there is no subtype yet)
and the text to the owned string, then record the new end offset. -/
def ContentType.push_subtype (ct : ContentType) (subtype : List Char) : ContentType :=
  let hasSubtypes := 0 < ct.num_subtypes
  let fulltype := ct.fulltype ++ (if hasSubtypes then '+' else '/') :: subtype
  { fulltype := fulltype, typeoffs := ct.typeoffs ++ [fulltype.length] }

/-- The values reachable through the public `ContentType` interface:
`new` followed by any sequence of `push_subtype` / `pop_subtype`. -/
inductive ContentType.Reachable : ContentType → Prop
  | new (src : List Char) : ContentType.Reachable (ContentType.new src)
  | push {ct : ContentType} (subtype : List Char) :
      ContentType.Reachable ct → ContentType.Reachable (ct.push_subtype subtype)
  | pop {ct : ContentType} :
      ContentType.Reachable ct → ContentType.Reachable ct.pop_subtype

/-- `CodecError` from `codec.rs`. -/
inductive CodecError where
  | InvalidType
  | InvalidData
deriving Repr, DecidableEq

/-- A header-bearing message, reduced to the only header the chain
protocol touches (`Content-Type`, stored as the string of its
`HeaderValue`) plus the body slot. -/
structure Message (β : Type) where
  contentType : Option (List Char)
  body : β
deriving Repr, DecidableEq

/-- `UnwrapType::unwrap_type`: read `Content-Type` (absent: `none`),
parse, compare the last subtype with the requested one, pop it and
return the rendering when it converts to a header value.  `hvOk` models
`HeaderValue::try_from`. -/
def unwrap_type {β : Type} (hvOk : List Char → Bool) (m : Message β)
    (subtype : List Char) : Option (List Char) :=
  match m.contentType with
  | some mimetype =>
    let ct := ContentType.new mimetype
    if ct.last_subtype = some subtype then
      let ct2 := ct.pop_subtype
      if hvOk ct2.as_ref then some ct2.as_ref else none
    else
      none
  | none => none

/-- `unwrap_type` under the debug profile: the outer `none` is the
panic that `last_subtype` raises on a zero-tag chain. -/
def unwrap_typeDbg {β : Type} (hvOk : List Char → Bool) (m : Message β)
    (subtype : List Char) : Option (Option (List Char)) :=
  match m.contentType with
  | some mimetype =>
    let ct := ContentType.new mimetype
    match ct.last_subtypeDbg with
    | none => none
    | some lastTag =>
      if lastTag = some subtype then
        let ct2 := ct.pop_subtype
        some (if hvOk ct2.as_ref then some ct2.as_ref else none)
      else
        some none
  | none => some none

/-- `WrapType::wrap_type`: read `Content-Type` (absent: `none`), parse,
push the subtype and return the rendering when it converts to a header
value. -/
def wrap_type {β : Type} (hvOk : List Char → Bool) (m : Message β)
    (subtype : List Char) : Option (List Char) :=
  match m.contentType with
  | some mimetype =>
    let ct := (ContentType.new mimetype).push_subtype subtype
    if hvOk ct.as_ref then some ct.as_ref else none
  | none => none

/-- The shared `decode_*_auto_type` shape: unwrap the codec's tag
(failure: `InvalidType`), run the native decode (failure:
`InvalidData`, headers untouched) and only on success install the
unwrapped type.  `dec` is the external native decoder, already mapped
to `Option` (its error collapses to `InvalidData`). -/
def decode_auto_type {β γ : Type} (hvOk : List Char → Bool) (tagname : List Char)
    (dec : β → Option γ) (m : Message β) : Except CodecError (Message γ) :=
  match unwrap_type hvOk m tagname with
  | some mimetype =>
    match dec m.body with
    | some newBody => .ok ⟨some mimetype, newBody⟩
    | none => .error CodecError.InvalidData
  | none => .error CodecError.InvalidType

/-- The shared `encode_*_auto_type` shape: wrap the codec's tag first
(failure: `InvalidType`, the native encoder never runs), then run the
native encode and install the wrapped type only together with its
success. -/
def encode_auto_type {β γ : Type} (hvOk : List Char → Bool) (tagname : List Char)
    (enc : β → Option γ) (m : Message β) : Except CodecError (Message γ) :=
  match wrap_type hvOk m tagname with
  | some mimetype =>
    match enc m.body with
    | some newBody => .ok ⟨some mimetype, newBody⟩
    | none => .error CodecError.InvalidData
  | none => .error CodecError.InvalidType

/-- `decode_base64_auto_type` (`base64.rs`): the shared shape at tag
`"base64"`, over the external base64 native decoder. -/
def decode_base64_auto_type {β γ : Type} (hvOk : List Char → Bool)
    (dec : β → Option γ) (m : Message β) : Except CodecError (Message γ) :=
  decode_auto_type hvOk ("base64".toList) dec m

/-- `decode_json_auto_type` (`json.rs`): the shared shape at tag
`"json"`, over the external JSON native deserializer. -/
def decode_json_auto_type {β γ : Type} (hvOk : List Char → Bool)
    (dec : β → Option γ) (m : Message β) : Except CodecError (Message γ) :=
  decode_auto_type hvOk ("json".toList) dec m

/-- `decrypt_sealedbox_auto_type` (`sealedbox.rs`): the shared shape at
tag `"sealedbox"`, over the external sealed-box opener and its key
pair. -/
def decrypt_sealedbox_auto_type {β γ π σ : Type} (hvOk : List Char → Bool)
    (dec : π → σ → β → Option γ) (publicKey : π) (secretKey : σ)
    (m : Message β) : Except CodecError (Message γ) :=
  decode_auto_type hvOk ("sealedbox".toList) (dec publicKey secretKey) m

/-- `encode_base64_auto_type` (`base64.rs`). -/
def encode_base64_auto_type {β γ : Type} (hvOk : List Char → Bool)
    (enc : β → Option γ) (m : Message β) : Except CodecError (Message γ) :=
  encode_auto_type hvOk ("base64".toList) enc m

/-- `encode_json_auto_type` (`json.rs`). -/
def encode_json_auto_type {β γ : Type} (hvOk : List Char → Bool)
    (enc : β → Option γ) (m : Message β) : Except CodecError (Message γ) :=
  encode_auto_type hvOk ("json".toList) enc m

/-- `encrypt_sealedbox_auto_type` (`sealedbox.rs`). -/
def encrypt_sealedbox_auto_type {β γ π : Type} (hvOk : List Char → Bool)
    (enc : π → β → Option γ) (publicKey : π)
    (m : Message β) : Except CodecError (Message γ) :=
  encode_auto_type hvOk ("sealedbox".toList) (enc publicKey) m

example : (ContentType.new ("application/json".toList)).typeoffs = [11, 16] := by decide

example : (ContentType.new ("application/json+sbox+base64".toList)).typeoffs
    = [11, 16, 21, 28] := by decide

example : (ContentType.new ("application".toList)).typeoffs = [11] := by decide

example : (ContentType.new ("application/json".toList)).last_subtype
    = some ("json".toList) := by decide

theorem findChar_eq_none (c : Char) : ∀ (l : List Char), findChar c l = none ↔ c ∉ l
  | [] => by simp [findChar]
  | x :: xs => by
    simp only [findChar, List.mem_cons]
    by_cases hx : x = c
    · simp [hx]
    · rw [if_neg hx, Option.map_eq_none', findChar_eq_none c xs]
      constructor
      · intro h hor
        rcases hor with h1 | h2
        · exact hx h1.symm
        · exact h h2
      · exact fun h hm => h (Or.inr hm)

theorem findChar_some_lt (c : Char) :
    ∀ (l : List Char) (i : Nat), findChar c l = some i → i < l.length
  | [], i => by simp [findChar]
  | x :: xs, i => by
    simp only [findChar, List.length_cons]
    by_cases hx : x = c
    · simp only [hx, if_pos rfl]
      intro h
      cases h
      omega
    · simp only [hx, if_neg, Option.map_eq_some', ite_false]
      rintro ⟨j, hj, rfl⟩
      have := findChar_some_lt c xs j hj
      omega

theorem findChar_append_some (c : Char) :
    ∀ (a b : List Char) (i : Nat), findChar c a = some i → findChar c (a ++ b) = some i
  | [], _, i => by simp [findChar]
  | x :: xs, b, i => by
    simp only [findChar, List.cons_append]
    by_cases hx : x = c
    · simp [hx]
    · simp only [hx, ite_false, Option.map_eq_some']
      rintro ⟨j, hj, rfl⟩
      exact ⟨j, findChar_append_some c xs b j hj, rfl⟩

theorem findChar_append_none (c : Char) :
    ∀ (a b : List Char), findChar c a = none →
      findChar c (a ++ b) = (findChar c b).map (· + a.length)
  | [], b => by
    intro _
    simp only [List.nil_append, List.length_nil]
    cases findChar c b <;> simp
  | x :: xs, b => by
    intro h
    have hx : ¬ x = c := by
      intro hxc
      simp [findChar, hxc] at h
    have h2 : findChar c xs = none := by
      rw [findChar, if_neg hx, Option.map_eq_none'] at h
      exact h
    show findChar c (x :: (xs ++ b)) = _
    rw [findChar, if_neg hx, findChar_append_none c xs b h2]
    cases findChar c b <;> simp [List.length_cons]
    omega

theorem getD_concat_self : ∀ (l : List Nat) (x d : Nat), (l ++ [x]).getD l.length d = x
  | [], _, _ => rfl
  | y :: ys, x, d => by simpa using getD_concat_self ys x d

theorem getD_append_lt :
    ∀ (l l' : List Nat) (n d : Nat), n < l.length → (l ++ l').getD n d = l.getD n d
  | [], _, n, _, h => by simp at h
  | x :: xs, l', 0, d, _ => rfl
  | x :: xs, l', n + 1, d, h => by
    simpa using getD_append_lt xs l' n d (by simpa using h)

theorem getD_append_two_left (l : List Nat) (a b d : Nat) :
    (l ++ [a, b]).getD l.length d = a := by
  have h : l ++ [a, b] = (l ++ [a]) ++ [b] := by simp
  rw [h, getD_append_lt _ _ _ _ (by simp), getD_concat_self]

theorem getD_append_two_right (l : List Nat) (a b d : Nat) :
    (l ++ [a, b]).getD (l.length + 1) d = b := by
  have h : l ++ [a, b] = (l ++ [a]) ++ [b] := by simp
  have h2 := getD_concat_self (l ++ [a]) b d
  rw [h]
  simpa using h2

theorem as_ref_concat (full : List Char) (l : List Nat) (x : Nat) :
    (ContentType.mk full (l ++ [x])).as_ref = full.take x := by
  show full.take ((l ++ [x]).getD ((l ++ [x]).length - 1) 0) = _
  have h : (l ++ [x]).length - 1 = l.length := by simp
  rw [h, getD_concat_self]

theorem scanPlusAux_ne_nil (src : List Char) :
    ∀ (fuel off : Nat), scanPlusAux src fuel off ≠ []
  | 0, _ => by simp [scanPlusAux]
  | fuel + 1, off => by
    simp only [scanPlusAux]
    cases findChar '+' (src.drop off) <;> simp

theorem scanPlusAux_no_plus (src : List Char) (fuel off : Nat)
    (h : findChar '+' (src.drop off) = none) : scanPlusAux src fuel off = [src.length] := by
  cases fuel with
  | zero => rfl
  | succ f => simp [scanPlusAux, h]

theorem scanPlusAux_spec (src : List Char) : ∀ (fuel off : Nat),
    off ≤ src.length → src.length < fuel + off →
    (scanPlusAux src fuel off).Pairwise (· < ·) ∧
    (∀ x ∈ scanPlusAux src fuel off, off ≤ x ∧ x ≤ src.length) ∧
    (scanPlusAux src fuel off).getLast? = some src.length
  | 0, off, h1, h2 => (by omega : False).elim
  | fuel + 1, off, h1, h2 => by
    simp only [scanPlusAux]
    cases hf : findChar '+' (src.drop off) with
    | none =>
      refine ⟨by simp, ?_, by simp⟩
      intro x hx
      simp only [List.mem_singleton] at hx
      omega
    | some d =>
      have hd : d < (src.drop off).length := findChar_some_lt _ _ _ hf
      have hd' : off + d < src.length := by
        rw [List.length_drop] at hd
        omega
      have ih := scanPlusAux_spec src fuel (off + d + 1) (by omega) (by omega)
      refine ⟨?_, ?_, ?_⟩
      · refine List.pairwise_cons.mpr ⟨fun x hx => ?_, ih.1⟩
        have := ih.2.1 x hx
        omega
      · intro x hx
        rcases List.mem_cons.mp hx with rfl | hx
        · omega
        · have := ih.2.1 x hx
          omega
      · have hne := scanPlusAux_ne_nil src fuel (off + d + 1)
        have hlast := ih.2.2
        show ((off + d) :: scanPlusAux src fuel (off + d + 1)).getLast? = some src.length
        cases hc : scanPlusAux src fuel (off + d + 1) with
        | nil => exact absurd hc hne
        | cons y ys =>
          rw [hc] at hlast
          rw [List.getLast?_cons_cons]
          exact hlast

theorem scanPlusAux_succ_some (src : List Char) (fuel off d : Nat)
    (h : findChar '+' (src.drop off) = some d) :
    scanPlusAux src (fuel + 1) off = (off + d) :: scanPlusAux src fuel (off + d + 1) := by
  simp only [scanPlusAux, h]

theorem scanPlusAux_append_plus (s t : List Char) (ht : findChar '+' t = none) :
    ∀ (fs fw off : Nat), off ≤ s.length → s.length < fs + off →
      (s ++ '+' :: t).length < fw + off →
      scanPlusAux (s ++ '+' :: t) fw off
        = (scanPlusAux s fs off).dropLast ++ [s.length, s.length + 1 + t.length]
  | 0, fw, off, h1, h2, h3 => (by omega : False).elim
  | fs + 1, fw, off, h1, h2, h3 => by
    have hlen : (s ++ '+' :: t).length = s.length + 1 + t.length := by
      simp
      omega
    obtain ⟨fw', rfl⟩ : ∃ fw', fw = fw' + 1 := by
      cases fw with
      | zero => exact ((by rw [hlen] at h3 ; omega : False)).elim
      | succ n => exact ⟨n, rfl⟩
    have hdrop : (s ++ '+' :: t).drop off = s.drop off ++ '+' :: t := by
      rw [List.drop_append_eq_append_drop, Nat.sub_eq_zero_of_le h1, List.drop_zero]
    cases hf : findChar '+' (s.drop off) with
    | some d =>
      have hd : d < (s.drop off).length := findChar_some_lt _ _ _ hf
      have hd' : off + d < s.length := by
        rw [List.length_drop] at hd
        omega
      have hw : findChar '+' ((s ++ '+' :: t).drop off) = some d := by
        rw [hdrop]
        exact findChar_append_some '+' _ _ _ hf
      have hne := scanPlusAux_ne_nil s fs (off + d + 1)
      rw [scanPlusAux_succ_some _ _ _ _ hw, scanPlusAux_succ_some _ _ _ _ hf,
        scanPlusAux_append_plus s t ht fs fw' (off + d + 1) (by omega) (by omega)
          (by rw [hlen] ; omega),
        List.dropLast_cons_of_ne_nil hne]
      simp
    | none =>
      have hplusT : findChar '+' ('+' :: t) = some 0 := by simp [findChar]
      have hw : findChar '+' ((s ++ '+' :: t).drop off) = some ((s.drop off).length) := by
        rw [hdrop, findChar_append_none '+' _ _ hf, hplusT]
        simp
      rw [scanPlusAux_succ_some _ _ _ _ hw, scanPlusAux_no_plus s (fs + 1) off hf]
      have hoff : off + (s.drop off).length = s.length := by
        rw [List.length_drop]
        omega
      rw [hoff]
      have hdrop2 : (s ++ '+' :: t).drop (s.length + 1) = t := by
        rw [List.drop_append_eq_append_drop, List.drop_eq_nil_of_le (by omega)]
        have h : s.length + 1 - s.length = 1 := by omega
        rw [h]
        simp
      have htail : scanPlusAux (s ++ '+' :: t) fw' (s.length + 1) = [(s ++ '+' :: t).length] :=
        scanPlusAux_no_plus _ _ _ (by rw [hdrop2] ; exact ht)
      rw [htail, hlen]
      simp

theorem scanPlus_append_plus (s t : List Char) (ht : findChar '+' t = none) (off : Nat)
    (h1 : off ≤ s.length) :
    scanPlus (s ++ '+' :: t) off
      = (scanPlus s off).dropLast ++ [s.length, s.length + 1 + t.length] :=
  scanPlusAux_append_plus s t ht (s.length + 1) ((s ++ '+' :: t).length + 1) off h1
    (by omega) (by omega)

theorem new_fulltype (s : List Char) : (ContentType.new s).fulltype = s := by
  unfold ContentType.new
  cases findChar '/' s <;> rfl

theorem new_offsets_slash {s : List Char} {p : Nat} (hp : findChar '/' s = some p) :
    (ContentType.new s).typeoffs = p :: scanPlus s (p + 1) := by
  simp [ContentType.new, hp]

theorem new_offsets_noslash {s : List Char} (hp : findChar '/' s = none) :
    (ContentType.new s).typeoffs = [s.length] := by
  simp [ContentType.new, hp]

theorem new_num_pos {s : List Char} {p : Nat} (hp : findChar '/' s = some p) :
    0 < (ContentType.new s).num_subtypes := by
  rw [ContentType.num_subtypes, new_offsets_slash hp]
  simp only [List.length_cons, Nat.succ_sub_one]
  exact List.length_pos.mpr (scanPlusAux_ne_nil s (s.length + 1) (p + 1))

theorem new_num_zero {s : List Char} (hp : findChar '/' s = none) :
    (ContentType.new s).num_subtypes = 0 := by
  rw [ContentType.num_subtypes, new_offsets_noslash hp]
  rfl

theorem push_subtype_eq (ct : ContentType) (t : List Char) :
    ct.push_subtype t = ContentType.mk
      (ct.fulltype ++ (if 0 < ct.num_subtypes then '+' else '/') :: t)
      (ct.typeoffs ++ [ct.fulltype.length + 1 + t.length]) := by
  show ContentType.mk _
      (ct.typeoffs ++ [(ct.fulltype ++ (if 0 < ct.num_subtypes then '+' else '/') :: t).length])
    = _
  have h : (ct.fulltype ++ (if 0 < ct.num_subtypes then '+' else '/') :: t).length
      = ct.fulltype.length + 1 + t.length := by
    simp
    omega
  rw [h]

theorem push_as_ref (ct : ContentType) (t : List Char) :
    (ct.push_subtype t).as_ref
      = ct.fulltype ++ (if 0 < ct.num_subtypes then '+' else '/') :: t := by
  rw [push_subtype_eq]
  have h := as_ref_concat
    (ct.fulltype ++ (if 0 < ct.num_subtypes then '+' else '/') :: t)
    ct.typeoffs (ct.fulltype.length + 1 + t.length)
  rw [h, List.take_of_length_le (by simp ; omega)]

theorem num_subtypes_two (full : List Char) (l : List Nat) (a b : Nat) :
    (ContentType.mk full (l ++ [a, b])).num_subtypes = l.length + 1 := by
  simp [ContentType.num_subtypes]

theorem last_subtype_two (full : List Char) (l : List Nat) (a b : Nat) :
    (ContentType.mk full (l ++ [a, b])).last_subtype = some ((full.take b).drop (a + 1)) := by
  unfold ContentType.last_subtype ContentType.get_subtype
  rw [num_subtypes_two]
  have hidx : l.length + 1 - 1 = l.length := by omega
  rw [hidx, if_pos (by omega)]
  show some ((full.take ((l ++ [a, b]).getD (l.length + 1) 0)).drop
    ((l ++ [a, b]).getD l.length 0 + 1)) = _
  rw [getD_append_two_right, getD_append_two_left]

theorem pop_two (full : List Char) (l : List Nat) (a b : Nat) :
    (ContentType.mk full (l ++ [a, b])).pop_subtype = ContentType.mk full (l ++ [a]) := by
  unfold ContentType.pop_subtype
  rw [if_pos (by rw [num_subtypes_two] ; omega)]
  have h : l ++ [a, b] = (l ++ [a]) ++ [b] := by simp
  show ContentType.mk full (l ++ [a, b]).dropLast = _
  rw [h, List.dropLast_concat]

theorem append_cons_drop (s t : List Char) (c : Char) :
    (s ++ c :: t).drop (s.length + 1) = t := by
  rw [List.drop_append_eq_append_drop, List.drop_eq_nil_of_le (by omega)]
  have h : s.length + 1 - s.length = 1 := by omega
  rw [h]
  simp

theorem reachable_wf {ct : ContentType} (h : ct.Reachable) :
    ct.typeoffs ≠ [] ∧ ct.typeoffs.Pairwise (· < ·) ∧
      ∀ x ∈ ct.typeoffs, x ≤ ct.fulltype.length := by
  induction h with
  | new src =>
    rw [new_fulltype]
    cases hs : findChar '/' src with
    | none =>
      rw [new_offsets_noslash hs]
      refine ⟨by simp, by simp, ?_⟩
      intro x hx
      simp only [List.mem_singleton] at hx
      omega
    | some p =>
      have hp : p < src.length := findChar_some_lt _ _ _ hs
      have hspec := scanPlusAux_spec src (src.length + 1) (p + 1) (by omega) (by omega)
      rw [new_offsets_slash hs]
      refine ⟨by simp, ?_, ?_⟩
      · refine List.pairwise_cons.mpr ⟨fun x hx => ?_, hspec.1⟩
        have := hspec.2.1 x hx
        omega
      · intro x hx
        rcases List.mem_cons.mp hx with rfl | hx
        · omega
        · exact (hspec.2.1 x hx).2
  | @push ct t hct ih =>
    obtain ⟨hne, hpw, hb⟩ := ih
    rw [push_subtype_eq]
    refine ⟨by simp, ?_, ?_⟩
    · refine List.pairwise_append.mpr ⟨hpw, by simp, ?_⟩
      intro x hx y hy
      simp only [List.mem_singleton] at hy
      have := hb x hx
      subst hy
      simp
      omega
    · intro x hx
      rcases List.mem_append.mp hx with hx | hx
      · have := hb x hx
        simp
        omega
      · simp only [List.mem_singleton] at hx
        subst hx
        simp
        omega
  | @pop ct hct ih =>
    obtain ⟨hne, hpw, hb⟩ := ih
    unfold ContentType.pop_subtype
    by_cases hn : 0 < ct.num_subtypes
    · rw [if_pos hn]
      refine ⟨?_, ?_, ?_⟩
      · have hlen : 2 ≤ ct.typeoffs.length := by
          unfold ContentType.num_subtypes at hn
          omega
        intro hcontra
        have hl := congrArg List.length hcontra
        rw [List.length_dropLast] at hl
        simp at hl
        omega
      · exact hpw.sublist (List.dropLast_sublist _)
      · intro x hx
        exact hb x ((List.dropLast_sublist _).subset hx)
    · rw [if_neg hn]
      exact ⟨hne, hpw, hb⟩

theorem new_of_wrapped (s t : List Char) (ht : findChar '+' t = none) :
    ∃ l : List Nat,
      ((ContentType.new s).push_subtype t).as_ref
          = s ++ (if 0 < (ContentType.new s).num_subtypes then '+' else '/') :: t ∧
      (ContentType.new (((ContentType.new s).push_subtype t).as_ref)).typeoffs
          = l ++ [s.length, s.length + 1 + t.length] := by
  have hw : ((ContentType.new s).push_subtype t).as_ref
      = s ++ (if 0 < (ContentType.new s).num_subtypes then '+' else '/') :: t := by
    rw [push_as_ref, new_fulltype]
  cases hs : findChar '/' s with
  | some p =>
    have hp : p < s.length := findChar_some_lt _ _ _ hs
    have hpos := new_num_pos hs
    have hw' : ((ContentType.new s).push_subtype t).as_ref = s ++ '+' :: t := by
      rw [hw, if_pos hpos]
    refine ⟨p :: (scanPlus s (p + 1)).dropLast, ?_, ?_⟩
    · rw [hw', if_pos hpos]
    · rw [hw']
      have hfw : findChar '/' (s ++ '+' :: t) = some p := findChar_append_some _ _ _ _ hs
      rw [new_offsets_slash hfw, scanPlus_append_plus s t ht (p + 1) (by omega)]
      simp
  | none =>
    have hzero := new_num_zero hs
    have hw' : ((ContentType.new s).push_subtype t).as_ref = s ++ '/' :: t := by
      rw [hw, hzero]
      simp
    refine ⟨[], ?_, ?_⟩
    · rw [hw', hzero]
      simp
    · rw [hw']
      have hfw : findChar '/' (s ++ '/' :: t) = some s.length := by
        rw [findChar_append_none '/' _ _ hs]
        have h0 : findChar '/' ('/' :: t) = some 0 := by simp [findChar]
        rw [h0]
        simp
      rw [new_offsets_slash hfw]
      have htail : scanPlus (s ++ '/' :: t) (s.length + 1) = [(s ++ '/' :: t).length] :=
        scanPlusAux_no_plus _ _ _ (by rw [append_cons_drop] ; exact ht)
      rw [htail]
      simp
      omega

theorem wrap_then_parse (s t : List Char) (ht : findChar '+' t = none) :
    (ContentType.new (((ContentType.new s).push_subtype t).as_ref)).last_subtype = some t ∧
    ((ContentType.new (((ContentType.new s).push_subtype t).as_ref)).pop_subtype).as_ref
      = s := by
  obtain ⟨l, hw, hoffs⟩ := new_of_wrapped s t ht
  set w := ((ContentType.new s).push_subtype t).as_ref with hwdef
  have hwlen : w.length = s.length + 1 + t.length := by
    rw [hw]
    simp
    omega
  have hfull : (ContentType.new w).fulltype = w := new_fulltype w
  have hct : ContentType.new w
      = ContentType.mk w (l ++ [s.length, s.length + 1 + t.length]) := by
    have h1 : ContentType.new w
        = ContentType.mk (ContentType.new w).fulltype (ContentType.new w).typeoffs := rfl
    rw [h1, hfull, hoffs]
  constructor
  · rw [hct, last_subtype_two]
    have h1 : w.take (s.length + 1 + t.length) = w := by
      rw [← hwlen]
      exact List.take_length w
    rw [h1, hw, append_cons_drop]
  · rw [hct, pop_two, as_ref_concat, hw]
    exact List.take_left s _

theorem exists_concat_two {l : List Nat} (h : 2 ≤ l.length) :
    ∃ l' a b, l = l' ++ [a, b] := by
  rcases List.eq_nil_or_concat l with rfl | ⟨l1, b, rfl⟩
  · simp at h
  · rcases List.eq_nil_or_concat l1 with rfl | ⟨l2, a, rfl⟩
    · simp [List.concat_eq_append] at h
    · exact ⟨l2, a, b, by simp⟩

/-- C1: the source of `last_subtype` reads
`self.get_subtype(self.num_subtypes() - 1)` with no guard.  On the
zero-tag chain parsed from `"application"` the `usize` subtraction
`0 - 1` underflows: the debug-profile model panics (`none`), and only
the wraparound of the release profile, together with the range guard
inside `get_subtype`, makes the call return `none` instead of
crashing.  The claimed guard before the subtraction does not exist. -/
theorem last_subtype_underflow_on_zero_tags :
    (ContentType.new ("application".toList)).num_subtypes = 0 ∧
    usizeSubChecked (ContentType.new ("application".toList)).num_subtypes 1 = none ∧
    (ContentType.new ("application".toList)).last_subtypeDbg = none ∧
    (ContentType.new ("application".toList)).last_subtype = none := by
  decide

/-- C2 counterexample: after `new("application/json")` followed by one
`pop_subtype`, the last offset is `11` while the backing `fulltype`
still has length `16` (pops do not rewrite the backing string), so the
claimed invariant `offsets.last() == fulltype.length` fails. -/
theorem pop_breaks_last_offset_eq_length :
    ¬ ((ContentType.new ("application/json".toList)).pop_subtype).typeoffs.getLast?
      = some (((ContentType.new ("application/json".toList)).pop_subtype).fulltype.length) := by
  decide

/-- C2 amended: for every `ContentType` reachable by `new` followed by
any sequence of `push_subtype` / `pop_subtype`, the offsets are
non-empty, strictly increasing, and every offset (in particular the
last) is at most the length of the backing `fulltype` string; equality
of the last offset with the length holds only until a pop shortens the
chain. -/
theorem reachable_offsets_invariant {ct : ContentType} (h : ct.Reachable) :
    ct.typeoffs ≠ [] ∧ ct.typeoffs.Pairwise (· < ·) ∧
      ∀ x ∈ ct.typeoffs, x ≤ ct.fulltype.length :=
  reachable_wf h

/-- C2 witness: the invariant at the concrete chain `new("a/b")`. -/
theorem reachable_offsets_invariant_witness :
    (ContentType.new ("a/b".toList)).typeoffs ≠ [] ∧
    (ContentType.new ("a/b".toList)).typeoffs.Pairwise (· < ·) ∧
    ∀ x ∈ (ContentType.new ("a/b".toList)).typeoffs,
      x ≤ (ContentType.new ("a/b".toList)).fulltype.length :=
  reachable_offsets_invariant (ContentType.Reachable.new ("a/b".toList))

/-- C3: `unwrap_type` reaches `last_subtype` on whatever chain the
`Content-Type` header parses to; on the slash-less header `"text"`
(zero tags) the debug-profile model panics from the unguarded
subtraction instead of returning `none` as the claim states, while the
release-profile model returns `none` only through index wraparound. -/
theorem unwrap_type_panics_on_slashless_type :
    unwrap_typeDbg (fun _ => true) (Message.mk (some ("text".toList)) 0) ("base64".toList)
        = none ∧
    unwrap_type (fun _ => true) (Message.mk (some ("text".toList)) 0) ("base64".toList)
        = none := by
  decide

/-- C4: the shared auto-type decode shape (instantiated by the base64,
JSON and sealed-box adapters): an `unwrap_type` miss fails with
`InvalidType`; on a hit the native decode runs, a decode failure
returns `InvalidData` with no message (hence no header rewrite), and
only a decode success produces the message carrying the unwrapped
type. -/
theorem decode_auto_type_error_paths {β γ : Type} (hvOk : List Char → Bool)
    (dec : β → Option γ) (m : Message β) (tagname : List Char) :
    (unwrap_type hvOk m tagname = none →
      decode_auto_type hvOk tagname dec m = Except.error CodecError.InvalidType) ∧
    (∀ nt, unwrap_type hvOk m tagname = some nt →
      (dec m.body = none →
        decode_auto_type hvOk tagname dec m = Except.error CodecError.InvalidData) ∧
      (∀ b, dec m.body = some b →
        decode_auto_type hvOk tagname dec m = Except.ok (Message.mk (some nt) b))) ∧
    decode_base64_auto_type hvOk dec m = decode_auto_type hvOk ("base64".toList) dec m ∧
    decode_json_auto_type hvOk dec m = decode_auto_type hvOk ("json".toList) dec m ∧
    (∀ (π σ : Type) (d₂ : π → σ → β → Option γ) (pk : π) (sk : σ),
      decrypt_sealedbox_auto_type hvOk d₂ pk sk m
        = decode_auto_type hvOk ("sealedbox".toList) (d₂ pk sk) m) := by
  refine ⟨?_, ?_, rfl, rfl, fun π σ d₂ pk sk => rfl⟩
  · intro h
    simp only [decode_auto_type, h]
  · intro nt h
    constructor
    · intro hd
      simp only [decode_auto_type, h, hd]
    · intro b hd
      simp only [decode_auto_type, h, hd]

/-- C4 witness: a successful auto-type decode at tag `"base64"`. -/
theorem decode_auto_type_error_paths_witness :
    decode_auto_type (fun _ => true) ("base64".toList) (fun n : Nat => some (n + 1))
        (Message.mk (some ("application/vnd+base64".toList)) 3)
      = Except.ok (Message.mk (some ("application/vnd".toList)) 4) :=
  ((decode_auto_type_error_paths (fun _ => true) (fun n : Nat => some (n + 1))
      (Message.mk (some ("application/vnd+base64".toList)) 3) ("base64".toList)).2.1
    ("application/vnd".toList) (by decide)).2 4 (by decide)

/-- C5: the shared auto-type encode shape: `wrap_type` is computed
first and a wrap failure (absent `Content-Type` header, or a rendering
rejected by the header-value conversion) fails with `InvalidType`
producing a result independent of the native encoder (it never runs);
on a wrap hit the new header is produced only together with a
successful encode. -/
theorem encode_auto_type_error_paths {β γ : Type} (hvOk : List Char → Bool)
    (m : Message β) (tagname : List Char) :
    (wrap_type hvOk m tagname = none →
      ∀ (e₁ e₂ : β → Option γ),
        encode_auto_type hvOk tagname e₁ m = Except.error CodecError.InvalidType ∧
        encode_auto_type hvOk tagname e₁ m = encode_auto_type hvOk tagname e₂ m) ∧
    (m.contentType = none → wrap_type hvOk m tagname = none) ∧
    (∀ s, m.contentType = some s →
      hvOk (((ContentType.new s).push_subtype tagname).as_ref) = false →
      wrap_type hvOk m tagname = none) ∧
    (∀ nt (e : β → Option γ), wrap_type hvOk m tagname = some nt →
      (e m.body = none →
        encode_auto_type hvOk tagname e m = Except.error CodecError.InvalidData) ∧
      (∀ b, e m.body = some b →
        encode_auto_type hvOk tagname e m = Except.ok (Message.mk (some nt) b))) ∧
    (∀ (e : β → Option γ),
      encode_base64_auto_type hvOk e m = encode_auto_type hvOk ("base64".toList) e m ∧
      encode_json_auto_type hvOk e m = encode_auto_type hvOk ("json".toList) e m) ∧
    (∀ (π : Type) (e₂ : π → β → Option γ) (pk : π),
      encrypt_sealedbox_auto_type hvOk e₂ pk m
        = encode_auto_type hvOk ("sealedbox".toList) (e₂ pk) m) := by
  refine ⟨?_, ?_, ?_, ?_, fun e => ⟨rfl, rfl⟩, fun π e₂ pk => rfl⟩
  · intro h e₁ e₂
    constructor
    · simp only [encode_auto_type, h]
    · simp only [encode_auto_type, h]
  · intro h
    simp only [wrap_type, h]
  · intro s h hv
    simp only [wrap_type, h, hv]
    rfl
  · intro nt e h
    constructor
    · intro hd
      simp only [encode_auto_type, h, hd]
    · intro b hd
      simp only [encode_auto_type, h, hd]

/-- C5 witness: a successful auto-type encode at tag `"base64"`. -/
theorem encode_auto_type_error_paths_witness :
    encode_auto_type (fun _ => true) ("base64".toList) (fun n : Nat => some (n + 1))
        (Message.mk (some ("application/vnd".toList)) 3)
      = Except.ok (Message.mk (some ("application/vnd+base64".toList)) 4) :=
  ((encode_auto_type_error_paths (fun _ => true)
      (Message.mk (some ("application/vnd".toList)) 3) ("base64".toList)).2.2.2.1
    ("application/vnd+base64".toList) (fun n : Nat => some (n + 1)) (by decide)).2
    4 (by decide)

/-- C6: for every reachable chain, `push_subtype` followed by
`pop_subtype` leaves the rendered string `as_ref` unchanged (the pop
removes exactly the offset the push appended; the appended text stays
in the backing string but past the rendering boundary). -/
theorem push_then_pop_render_id {ct : ContentType} (h : ct.Reachable) (t : List Char) :
    ((ct.push_subtype t).pop_subtype).as_ref = ct.as_ref := by
  obtain ⟨hne, hpw, hb⟩ := reachable_wf h
  rw [push_subtype_eq]
  obtain ⟨l, x, heq⟩ : ∃ l x, ct.typeoffs = l ++ [x] := by
    rcases List.eq_nil_or_concat ct.typeoffs with h0 | ⟨l, x, h0⟩
    · exact absurd h0 hne
    · exact ⟨l, x, by rw [h0] ; simp⟩
  rw [heq]
  have hassoc : (l ++ [x]) ++ [ct.fulltype.length + 1 + t.length]
      = l ++ [x, ct.fulltype.length + 1 + t.length] := by simp
  rw [hassoc, pop_two, as_ref_concat]
  have hx : x ≤ ct.fulltype.length := hb x (by rw [heq] ; simp)
  have har : ct.as_ref = ct.fulltype.take x := by
    show ct.fulltype.take (ct.typeoffs.getD (ct.typeoffs.length - 1) 0) = _
    rw [heq]
    have hlen : (l ++ [x]).length - 1 = l.length := by simp
    rw [hlen, getD_concat_self]
  rw [har, List.take_append_eq_append_take, Nat.sub_eq_zero_of_le hx, List.take_zero,
    List.append_nil]

/-- C6 witness: push then pop on the chain `new("a/b")`. -/
theorem push_then_pop_render_id_witness :
    (((ContentType.new ("a/b".toList)).push_subtype ("x".toList)).pop_subtype).as_ref
      = (ContentType.new ("a/b".toList)).as_ref :=
  push_then_pop_render_id (ContentType.Reachable.new ("a/b".toList)) ("x".toList)

/-- C7: `pop_subtype` removes the most recently appended offset iff
`num_subtypes > 0`; on a zero-tag chain it is the identity (no error,
rendering unchanged). -/
theorem pop_subtype_spec (ct : ContentType) :
    (0 < ct.num_subtypes →
      ct.pop_subtype = { ct with typeoffs := ct.typeoffs.dropLast }) ∧
    (ct.num_subtypes = 0 →
      ct.pop_subtype = ct ∧ ct.pop_subtype.as_ref = ct.as_ref) := by
  constructor
  · intro h
    unfold ContentType.pop_subtype
    rw [if_pos h]
  · intro h
    have h0 : ¬ 0 < ct.num_subtypes := by omega
    unfold ContentType.pop_subtype
    rw [if_neg h0]
    exact ⟨rfl, rfl⟩

/-- C7 witness: one popping chain and one zero-tag chain. -/
theorem pop_subtype_spec_witness :
    (ContentType.new ("application/json".toList)).pop_subtype
        = { ContentType.new ("application/json".toList) with
            typeoffs := (ContentType.new ("application/json".toList)).typeoffs.dropLast } ∧
    (ContentType.new ("application".toList)).pop_subtype
        = ContentType.new ("application".toList) :=
  ⟨(pop_subtype_spec (ContentType.new ("application/json".toList))).1 (by decide),
    ((pop_subtype_spec (ContentType.new ("application".toList))).2 (by decide)).1⟩

/-- C8: the concrete scenario from the spec: parsing
`"application/json+sbox+base64"` yields three tags `json`, `sbox`,
`base64`, and three successive pops render
`"application/json+sbox"`, `"application/json"`, `"application"`. -/
theorem parse_three_tags_scenario :
    (ContentType.new ("application/json+sbox+base64".toList)).num_subtypes = 3 ∧
    (ContentType.new ("application/json+sbox+base64".toList)).get_subtype 0
        = some ("json".toList) ∧
    (ContentType.new ("application/json+sbox+base64".toList)).get_subtype 1
        = some ("sbox".toList) ∧
    (ContentType.new ("application/json+sbox+base64".toList)).get_subtype 2
        = some ("base64".toList) ∧
    ((ContentType.new ("application/json+sbox+base64".toList)).pop_subtype).as_ref
        = "application/json+sbox".toList ∧
    (((ContentType.new ("application/json+sbox+base64".toList)).pop_subtype).pop_subtype).as_ref
        = "application/json".toList ∧
    ((((ContentType.new
        ("application/json+sbox+base64".toList)).pop_subtype).pop_subtype).pop_subtype).as_ref
        = "application".toList := by
  decide

/-- C9: auto-type encode followed by auto-type decode of the same tag
is the identity on `Content-Type` and body, whenever the original
message carries a valid `Content-Type`, the tag contains no `+`, and
the native decode inverts the native encode on this body. -/
theorem encode_then_decode_roundtrip {β : Type} (hvOk : List Char → Bool)
    (enc dec : β → Option β) (m m₁ : Message β) (s t : List Char)
    (hct : m.contentType = some s) (hs : hvOk s = true) (ht : '+' ∉ t)
    (henc : encode_auto_type hvOk t enc m = Except.ok m₁)
    (hdec : dec m₁.body = some m.body) :
    decode_auto_type hvOk t dec m₁ = Except.ok (Message.mk m.contentType m.body) := by
  have htf : findChar '+' t = none := (findChar_eq_none '+' t).mpr ht
  have hwp := wrap_then_parse s t htf
  have hwrap : wrap_type hvOk m t
      = (if hvOk (((ContentType.new s).push_subtype t).as_ref)
          then some (((ContentType.new s).push_subtype t).as_ref) else none) := by
    unfold wrap_type
    rw [hct]
  unfold encode_auto_type at henc
  rw [hwrap] at henc
  cases hv : hvOk (((ContentType.new s).push_subtype t).as_ref) with
  | false =>
    rw [hv] at henc
    simp at henc
  | true =>
    rw [hv] at henc
    simp only [if_true] at henc
    cases he : enc m.body with
    | none =>
      rw [he] at henc
      simp at henc
    | some b =>
      rw [he] at henc
      have henc2 : Except.ok (Message.mk
          (some (((ContentType.new s).push_subtype t).as_ref)) b)
          = (Except.ok m₁ : Except CodecError (Message β)) := henc
      have hm₁ : m₁ = Message.mk (some (((ContentType.new s).push_subtype t).as_ref)) b := by
        injection henc2 with h1
        exact h1.symm
      have hm1ct : m₁.contentType = some (((ContentType.new s).push_subtype t).as_ref) := by
        rw [hm₁]
      have hunwrap : unwrap_type hvOk m₁ t = some s := by
        unfold unwrap_type
        rw [hm1ct]
        show (if (ContentType.new
              (((ContentType.new s).push_subtype t).as_ref)).last_subtype = some t then
            (if hvOk ((ContentType.new
                (((ContentType.new s).push_subtype t).as_ref)).pop_subtype).as_ref
              then some ((ContentType.new
                (((ContentType.new s).push_subtype t).as_ref)).pop_subtype).as_ref
              else none)
          else none) = some s
        rw [hwp.1, if_pos rfl, hwp.2, hs]
        simp
      unfold decode_auto_type
      rw [hunwrap]
      show (match dec m₁.body with
        | some newBody => Except.ok (Message.mk (some s) newBody)
        | none => Except.error CodecError.InvalidData)
          = Except.ok (Message.mk m.contentType m.body)
      rw [hdec, hct]

/-- C9 witness: a concrete round trip at tag `"base64"` with inverse
native maps. -/
theorem encode_then_decode_roundtrip_witness :
    decode_auto_type (fun _ => true) ("base64".toList) (fun n : Nat => some (n - 1))
        (Message.mk (some ("application/json+base64".toList)) 6)
      = Except.ok (Message.mk (some ("application/json".toList)) 5) :=
  encode_then_decode_roundtrip (fun _ => true) (fun n : Nat => some (n + 1))
    (fun n : Nat => some (n - 1)) (Message.mk (some ("application/json".toList)) 5)
    (Message.mk (some ("application/json+base64".toList)) 6)
    ("application/json".toList) ("base64".toList)
    (by decide) (by decide) (by decide) (by rfl) (by decide)

/-- C10 counterexample: on the one-tag chain `new("application/json")`,
popping and then pushing `"xml"` renders `"application/json/xml"`: the
pop empties the chain, so the push appends `"/xml"`, not `"+xml"` —
the rendered string contains no `+` at all, refuting the claim that
the popped tag text precedes a newly pushed `"+xml"`. -/
theorem pop_push_no_plus_counterexample :
    ¬ ∃ pre suf : List Char,
      (((ContentType.new ("application/json".toList)).pop_subtype).push_subtype
          ("xml".toList)).as_ref
        = pre ++ '+' :: "xml".toList ++ suf := by
  intro hconc
  obtain ⟨pre, suf, hconc⟩ := hconc
  have hmem : '+' ∈ (((ContentType.new ("application/json".toList)).pop_subtype).push_subtype
      ("xml".toList)).as_ref := by
    rw [hconc]
    simp
  revert hmem
  decide

/-- C10 amended: for every chain whose last tag is `p`, popping and
then pushing `t` renders a string in which the popped text `p` still
occurs before the newly pushed separator and `t`; the separator is `+`
when the chain had at least two tags and `/` when the pop emptied the
chain (push appends at the end of the full backing string, so
pop-then-push is not tag replacement). -/
theorem pop_push_keeps_popped_text (ct : ContentType) (p : List Char)
    (hp : ct.last_subtype = some p) (t : List Char) :
    ∃ pre mid, ((ct.pop_subtype).push_subtype t).as_ref
      = pre ++ p ++ mid ++ (if 1 < ct.num_subtypes then '+' else '/') :: t := by
  obtain ⟨full, offs⟩ := ct
  have hnum : 0 < (ContentType.mk full offs).num_subtypes := by
    rcases Nat.eq_zero_or_pos (ContentType.mk full offs).num_subtypes with h0 | h0
    · rw [ContentType.last_subtype, h0] at hp
      unfold ContentType.get_subtype at hp
      rw [h0] at hp
      simp at hp
    · exact h0
  have hlen2 : 2 ≤ offs.length := by
    unfold ContentType.num_subtypes at hnum
    simp at hnum
    omega
  obtain ⟨l, a, b, heq⟩ := exists_concat_two hlen2
  subst heq
  rw [last_subtype_two] at hp
  have hpv : (full.take b).drop (a + 1) = p := Option.some.inj hp
  rw [pop_two, push_as_ref]
  have htb : full.take b = (full.take b).take (a + 1) ++ p := by
    rw [← hpv]
    exact (List.take_append_drop (a + 1) (full.take b)).symm
  have hfull : full = ((full.take b).take (a + 1) ++ p) ++ full.drop b := by
    conv_lhs => rw [← List.take_append_drop b full, htb]
  refine ⟨(full.take b).take (a + 1), full.drop b, ?_⟩
  have hn1 : (ContentType.mk full (l ++ [a])).num_subtypes = l.length := by
    unfold ContentType.num_subtypes
    simp
  have hn2 : (ContentType.mk full (l ++ [a, b])).num_subtypes = l.length + 1 :=
    num_subtypes_two full l a b
  by_cases hcase : 0 < l.length
  · rw [if_pos (by rw [hn1] ; exact hcase), if_pos (by rw [hn2] ; omega)]
    exact congrArg (fun z => z ++ '+' :: t) hfull
  · rw [if_neg (by rw [hn1] ; exact hcase), if_neg (by rw [hn2] ; omega)]
    exact congrArg (fun z => z ++ '/' :: t) hfull

/-- C10 amended witness: the one-tag chain, where the separator is
`/`. -/
theorem pop_push_keeps_popped_text_witness :
    ∃ pre mid, (((ContentType.new ("application/json".toList)).pop_subtype).push_subtype
        ("xml".toList)).as_ref
      = pre ++ "json".toList ++ mid
          ++ (if 1 < (ContentType.new ("application/json".toList)).num_subtypes
              then '+' else '/') :: "xml".toList :=
  pop_push_keeps_popped_text (ContentType.new ("application/json".toList))
    ("json".toList) (by decide) ("xml".toList)
